import Mathlib

/-!
Verification of the gcs query optimizer and the txsort BIP-69 sorting
utilities against their natural-language specification.

The gcs cost model (`Optimize`, `costZip`, `costHash`, `expQueries`,
`expReads`) is Go code working on IEEE-754 `float64` values. We embed it
over a type `GFloat` that carries exact real numbers together with the
IEEE special values NaN and signed infinity, and give each arithmetic
operation used by the source its IEEE behaviour on those special values
(`0 * ±∞ = NaN`, comparisons with NaN are false, `Log2 0 = -∞`, ...).
Rounding of finite results and the sign of zero are idealised: finite
arithmetic is exact real arithmetic. This is faithful for every claim
below, whose verdicts rest on sign/branch information or on the special
values, never on the low-order bits of a finite result.

The txsort code is pure except for in-place sorting and a `panic`; we
model each exported function as returning both the post-call state of
its transaction argument and its return value, and model `panic` with
`Option`.
-/

namespace Gcs

/-- A `float64` value as used by the gcs cost model: NaN, an infinity with a
sign (`inf true` is `+∞`), or a finite value modelled as an exact real. -/
inductive GFloat where
  | nan : GFloat
  | inf : Bool → GFloat
  | fin : ℝ → GFloat

noncomputable section

open GFloat Real

/-- IEEE negation. -/
def fneg : GFloat → GFloat
  | nan => nan
  | inf s => inf (!s)
  | fin x => fin (-x)

/-- IEEE addition (finite part exact). -/
def fadd : GFloat → GFloat → GFloat
  | nan, _ => nan
  | _, nan => nan
  | inf s, inf t => if s = t then inf s else nan
  | inf s, fin _ => inf s
  | fin _, inf t => inf t
  | fin x, fin y => fin (x + y)

/-- IEEE subtraction, via `x - y = x + (-y)` (exact on our value set). -/
def fsub (a b : GFloat) : GFloat := fadd a (fneg b)

/-- IEEE multiplication; `0 * ±∞ = NaN`. -/
def fmul : GFloat → GFloat → GFloat
  | nan, _ => nan
  | _, nan => nan
  | inf s, inf t => inf (s == t)
  | inf s, fin x => if x = 0 then nan else if 0 < x then inf s else inf (!s)
  | fin x, inf s => if x = 0 then nan else if 0 < x then inf s else inf (!s)
  | fin x, fin y => fin (x * y)

/-- IEEE division; `∞/∞` and `0/0` are NaN, `x/0 = ±∞` for `x ≠ 0`
(the sign of zero is idealised away). -/
def fdiv : GFloat → GFloat → GFloat
  | nan, _ => nan
  | _, nan => nan
  | inf _, inf _ => nan
  | inf s, fin y => if y < 0 then inf (!s) else inf s
  | fin _, inf _ => fin 0
  | fin x, fin y =>
    if y = 0 then (if x = 0 then nan else if 0 < x then inf true else inf false)
    else fin (x / y)

/-- IEEE `<` comparison: any comparison involving NaN is false. -/
def flt : GFloat → GFloat → Bool
  | nan, _ => false
  | _, nan => false
  | inf s, inf t => !s && t
  | inf s, fin _ => !s
  | fin _, inf t => t
  | fin x, fin y => decide (x < y)

/-- Go `math.Exp`: `Exp(-∞) = 0`, `Exp(+∞) = +∞`, `Exp(NaN) = NaN`. -/
def fexp : GFloat → GFloat
  | nan => nan
  | inf true => inf true
  | inf false => fin 0
  | fin x => fin (Real.exp x)

/-- Go `math.Log2`: `Log2(0) = -∞`, `Log2(x) = NaN` for `x < 0`,
`Log2(+∞) = +∞`, `Log2(NaN) = NaN`. -/
def flog2 : GFloat → GFloat
  | nan => nan
  | inf true => inf true
  | inf false => nan
  | fin x => if x < 0 then nan else if x = 0 then inf false else fin (Real.logb 2 x)

/-- Source: `const M = 784931.0`. -/
def M : GFloat := fin 784931

/-- Source: `CostSort = 130.0`. -/
def CostSort : GFloat := fin 130

/-- Source: `CostRead = 30.0`. -/
def CostRead : GFloat := fin 30

/-- Source: `CostInsert = 45.0`. -/
def CostInsert : GFloat := fin 45

/-- Source: `CostLookup = 30.0`. -/
def CostLookup : GFloat := fin 30

/-- Source: `CostComp = 1.0`. -/
def CostComp : GFloat := fin 1

/-- Source: `CostKey = 3.0`. -/
def CostKey : GFloat := fin 3

/-- The `MatchType` tag, with the three constants of the source. -/
inductive MatchType where
  | MatchBlock : MatchType
  | MatchZip : MatchType
  | MatchHash : MatchType
deriving DecidableEq

export MatchType (MatchBlock MatchZip MatchHash)

/-- Source: `func expQueries(q float64) float64 { return M * (1 - math.Exp(-q/M)) }`. -/
def expQueries (q : GFloat) : GFloat :=
  fmul M (fsub (fin 1) (fexp (fneg (fdiv q M))))

/-- Source: `func expQuerySlot(q, n, expQ float64) float64 { return (n * M / (q + 1)) * expQ }`
(present in the source, unused by `Optimize`). -/
def expQuerySlot (q n expQ : GFloat) : GFloat :=
  fmul (fdiv (fmul n M) (fadd q (fin 1))) expQ

/-- Source: `func expReads(q, n, expQ float64) float64 { return ((n + 1) / (q + 1)) * expQ }`. -/
def expReads (q n expQ : GFloat) : GFloat :=
  fmul (fdiv (fadd n (fin 1)) (fadd q (fin 1))) expQ

/-- Source: `costZip`, the term
`q*CostKey + q*math.Log2(q)*CostSort + (expQ+expN)*CostComp + expN*CostRead`. -/
def costZip (q expQ expN : GFloat) : GFloat :=
  fadd (fadd (fadd (fmul q CostKey) (fmul (fmul q (flog2 q)) CostSort))
    (fmul (fadd expQ expN) CostComp)) (fmul expN CostRead)

/-- Source: `costHash`, the term
`n*(CostInsert+CostRead) + expQ*CostKey + expQ*CostLookup`. -/
def costHash (q n expQ : GFloat) : GFloat :=
  fadd (fadd (fmul n (fadd CostInsert CostRead)) (fmul expQ CostKey))
    (fmul expQ CostLookup)

/-- Source: `func Optimize(querySize, filterSize int) (MatchType, float64)`.
Go's `float64(int)` conversion is the cast `ℤ → ℝ` (exact for every input
the claims quantify over). -/
def Optimize (querySize filterSize : ℤ) : MatchType × GFloat :=
  let Q : GFloat := fin (querySize : ℝ)
  let N : GFloat := fin (filterSize : ℝ)
  let expQ := expQueries Q
  let expN := expReads Q N expQ
  let cZip := costZip Q expQ expN
  let cHash := costHash Q N expQ
  if flt cZip cHash then (MatchZip, fdiv cZip cHash)
  else (MatchHash, fdiv cHash cZip)

/-- The `cZip` intermediate of `Optimize` as a function of the two sizes:
`costZip` applied to the converted query size and the two expectations. -/
def cZipOf (querySize filterSize : ℤ) : GFloat :=
  let Q : GFloat := fin (querySize : ℝ)
  let N : GFloat := fin (filterSize : ℝ)
  costZip Q (expQueries Q) (expReads Q N (expQueries Q))

/-- The `cHash` intermediate of `Optimize` as a function of the two sizes. -/
def cHashOf (querySize filterSize : ℤ) : GFloat :=
  let Q : GFloat := fin (querySize : ℝ)
  costHash Q (fin (filterSize : ℝ)) (expQueries Q)

/-- Real shadow of `expQueries` on finite inputs: `M * (1 - e^(-q/M))`. -/
def expQR (q : ℝ) : ℝ := 784931 * (1 - Real.exp (-(q / 784931)))

/-- Real shadow of `expReads` on finite inputs: `((n+1)/(q+1)) * expQ`. -/
def expNR (q n : ℝ) : ℝ := (n + 1) / (q + 1) * expQR q

/-- Real shadow of `costZip` on finite inputs with `q > 0`. -/
def czipR (q n : ℝ) : ℝ :=
  q * 3 + q * Real.logb 2 q * 130 + (expQR q + expNR q n) * 1 + expNR q n * 30

/-- Real shadow of `costHash` on finite inputs. -/
def chashR (q n : ℝ) : ℝ := n * (45 + 30) + expQR q * 3 + expQR q * 30

end

/-- Modelled from the spec: the Merge Matcher ("Zip" strategy) of spec §4.3 is
not among the provided source files. One cursor per ascending sequence of
reduced values; equal heads stop immediately with a match ("exists"
semantics); otherwise the cursor at the smaller value advances; exhaustion of
either sequence terminates with no match. -/
def mergeMatch : List ℕ → List ℕ → Bool
  | _, [] => false
  | [], _ => false
  | f :: fs, q :: qs =>
    if f = q then true
    else if f < q then mergeMatch fs (q :: qs)
    else mergeMatch (f :: fs) qs
termination_by fs qs => fs.length + qs.length

/-- Modelled from the spec: the Hash Matcher ("Hash" strategy) of spec §4.4 is
not among the provided source files. Every filter entry is inserted into a
hash set, then each reduced query value probes the set, stopping at the first
hit; set membership of a value equals list membership of the inserted list. -/
def hashMatch (fs qs : List ℕ) : Bool :=
  qs.any (fun q => fs.contains q)

end Gcs

namespace Txsort

/-- A transaction input's previous outpoint: the 32-byte `chainhash.Hash` (in
its native little-endian byte order, as one byte per list entry) and the
uint32 output index. -/
structure OutPoint where
  hash : List ℕ
  index : ℕ
deriving DecidableEq

/-- The field of `wire.TxIn` that BIP-69 sorting reads. -/
structure TxIn where
  previousOutPoint : OutPoint
deriving DecidableEq

/-- The fields of `wire.TxOut` that BIP-69 sorting reads. -/
structure TxOut where
  value : ℤ
  pkScript : List ℕ
deriving DecidableEq

/-- The fields of `wire.MsgTx` that txsort touches. The remaining fields
(version, locktime, witnesses) are deep-copied verbatim by `tx.Copy()` and
neither read nor written by any txsort function. -/
structure MsgTx where
  txIn : List TxIn
  txOut : List TxOut
deriving DecidableEq

/-- Go `bytes.Compare`: lexicographic byte-slice comparison, a proper prefix
comparing less. -/
def bytesCompare : List ℕ → List ℕ → Ordering
  | [], [] => .eq
  | [], _ :: _ => .lt
  | _ :: _, [] => .gt
  | a :: as, b :: bs =>
    if a < b then .lt else if b < a then .gt else bytesCompare as bs

/-- `sortableInputSlice.Less`: equal previous-outpoint hashes compare by
index; otherwise both 32-byte hashes are reversed to big-endian and compared
with `bytes.Compare`. The Go reversal loop acts on local array copies
(`chainhash.Hash` is an array value), so `Less` mutates nothing. -/
def inputLess (i j : TxIn) : Bool :=
  if i.previousOutPoint.hash = j.previousOutPoint.hash then
    decide (i.previousOutPoint.index < j.previousOutPoint.index)
  else
    bytesCompare i.previousOutPoint.hash.reverse j.previousOutPoint.hash.reverse == .lt

/-- `sortableOutputSlice.Less`: smaller amount first, `PkScript` as the tie
breaker. -/
def outputLess (a b : TxOut) : Bool :=
  if a.value = b.value then bytesCompare a.pkScript b.pkScript == .lt
  else decide (a.value < b.value)

/-- `txOutWithContext`: a `wire.TxOut` married to its contextual byte slice. -/
structure TxOutWithContext where
  txOut : TxOut
  context : List ℕ
deriving DecidableEq

/-- `sortableOutputContextSlice.Less`: value, then pk script, then the
contextual byte slice as the final tie breaker. -/
def ctxOutputLess (a b : TxOutWithContext) : Bool :=
  if a.txOut.value ≠ b.txOut.value then decide (a.txOut.value < b.txOut.value)
  else if bytesCompare a.txOut.pkScript b.txOut.pkScript ≠ .eq then
    bytesCompare a.txOut.pkScript b.txOut.pkScript == .lt
  else bytesCompare a.context b.context == .lt

/-- Insert `x` into `ys` before the first element `y` with `¬ less y x`. -/
def insertSorted {α : Type} (less : α → α → Bool) (x : α) : List α → List α
  | [] => [x]
  | y :: ys => if less y x then y :: insertSorted less x ys else x :: y :: ys

/-- Go `sort.Sort(data)`: an in-place comparison sort w.r.t. `data.Less`,
modelled as a function from the slice's old contents to its new contents
(here an insertion sort; Go's quicksort is unstable, so the order of
`Less`-ties is unspecified anyway, and no claim below depends on tie order —
only on the sorted order of the elements). -/
def sortSlice {α : Type} (less : α → α → Bool) (xs : List α) : List α :=
  xs.foldr (insertSorted less) []

/-- Go `sort.IsSorted(data)`: true iff no adjacent inversion. -/
def isSortedSlice {α : Type} (less : α → α → Bool) : List α → Bool
  | [] => true
  | [_] => true
  | a :: b :: rest => !less b a && isSortedSlice less (b :: rest)

/-- `func InPlaceSort(tx *wire.MsgTx)`: sorts both slices of `tx` in place;
the result is the post-call state of `tx`. -/
def InPlaceSort (tx : MsgTx) : MsgTx :=
  { tx with txIn := sortSlice inputLess tx.txIn,
            txOut := sortSlice outputLess tx.txOut }

/-- `func Sort(tx *wire.MsgTx) *wire.MsgTx`: deep-copies `tx`, sorts the
copy's input and output slices in place, returns the copy. First component:
the post-call state of the argument (only the copy is sorted, so the argument
is untouched); second component: the returned transaction. (`Sort` is a Lean
keyword, hence the name `SortTx`.) -/
def SortTx (tx : MsgTx) : MsgTx × MsgTx :=
  (tx, { tx with txIn := sortSlice inputLess tx.txIn,
                 txOut := sortSlice outputLess tx.txOut })

/-- `func IsSorted(tx *wire.MsgTx) bool`. -/
def IsSorted (tx : MsgTx) : Bool :=
  isSortedSlice inputLess tx.txIn && isSortedSlice outputLess tx.txOut

/-- `makeSortableOutputContextSlice`: panics (`none`) when the two slice
lengths differ, otherwise builds a fresh slice of wrapper structs pairing
`txouts[i]` with `ctxts[i]`. -/
def makeSortableOutputContextSlice (txouts : List TxOut) (ctxts : List (List ℕ)) :
    Option (List TxOutWithContext) :=
  if txouts.length ≠ ctxts.length then none
  else some (List.zipWith TxOutWithContext.mk txouts ctxts)

/-- `func InPlaceContextualSort(tx, ctxts)`: sorts `tx.TxIn` in place, then
builds the contextual wrapper slice (panicking on a length mismatch) and
sorts it. The wrapper slice is a fresh slice of structs, so sorting it
reorders neither `tx.TxOut` nor anything reachable from `tx`: the Go code
discards the sorted wrapper slice and `tx.TxOut` keeps its original order.
Result: the post-call state of `tx`, or `none` for a panic (in Go the panic
unwinds after the inputs were already sorted; the Option model only records
that the call does not return normally). -/
def InPlaceContextualSort (tx : MsgTx) (ctxts : List (List ℕ)) : Option MsgTx :=
  let tx1 := { tx with txIn := sortSlice inputLess tx.txIn }
  match makeSortableOutputContextSlice tx1.txOut ctxts with
  | none => none
  | some s =>
    let _discarded := sortSlice ctxOutputLess s
    some tx1

/-- `func ContextualSort(tx, ctxts)`: deep-copies `tx`, sorts the copy's
inputs in place, then sorts the contextual wrapper slice built from the
ORIGINAL `tx.TxOut` (source line 124 passes `tx.TxOut`, not `txCopy.TxOut`)
and discards it, so the returned copy's outputs keep their original order and
the argument is untouched. First component: the post-call state of the
argument; second component: the returned transaction; `none` for a panic. -/
def ContextualSort (tx : MsgTx) (ctxts : List (List ℕ)) : Option (MsgTx × MsgTx) :=
  let txCopy := { tx with txIn := sortSlice inputLess tx.txIn }
  match makeSortableOutputContextSlice tx.txOut ctxts with
  | none => none
  | some s =>
    let _discarded := sortSlice ctxOutputLess s
    some (tx, txCopy)

/-- `func IsContextualSorted(tx, ctxts)`: returns `false` as soon as the
inputs are unsorted — before the contextual wrapper slice (and with it the
length check that can panic) is ever built — otherwise checks the contextual
output order. `none` models the panic. -/
def IsContextualSorted (tx : MsgTx) (ctxts : List (List ℕ)) : Option Bool :=
  if !isSortedSlice inputLess tx.txIn then some false
  else
    match makeSortableOutputContextSlice tx.txOut ctxts with
    | none => none
    | some s => some (isSortedSlice ctxOutputLess s)

end Txsort

namespace Gcs

open GFloat Real

/-! Evaluation lemmas for `GFloat` arithmetic on finite values. -/

@[simp]
theorem fneg_fin (x : ℝ) : fneg (fin x) = fin (-x) := rfl

@[simp]
theorem fadd_fin (x y : ℝ) : fadd (fin x) (fin y) = fin (x + y) := rfl

@[simp]
theorem fsub_fin (x y : ℝ) : fsub (fin x) (fin y) = fin (x - y) := by
  show fin (x + -y) = fin (x - y)
  rw [← sub_eq_add_neg]

@[simp]
theorem fmul_fin (x y : ℝ) : fmul (fin x) (fin y) = fin (x * y) := rfl

theorem fdiv_fin (x y : ℝ) (hy : y ≠ 0) : fdiv (fin x) (fin y) = fin (x / y) := by
  simp [fdiv, hy]

@[simp]
theorem fexp_fin (x : ℝ) : fexp (fin x) = fin (Real.exp x) := rfl

theorem flog2_fin (x : ℝ) (hx : 0 < x) : flog2 (fin x) = fin (Real.logb 2 x) := by
  rw [flog2]
  rw [if_neg (not_lt.2 hx.le), if_neg hx.ne']

@[simp]
theorem flt_fin (x y : ℝ) : flt (fin x) (fin y) = decide (x < y) := rfl

/-! Evaluation of the cost-model functions on finite inputs, in terms of the
real shadows. -/

theorem expQueries_fin (q : ℝ) : expQueries (fin q) = fin (expQR q) := by
  rw [expQueries, M, fdiv_fin q 784931 (by norm_num), fneg_fin, fexp_fin,
    fsub_fin, fmul_fin, expQR]

theorem expReads_fin (q n e : ℝ) (hq : q + 1 ≠ 0) :
    expReads (fin q) (fin n) (fin e) = fin ((n + 1) / (q + 1) * e) := by
  rw [expReads, fadd_fin, fadd_fin, fdiv_fin _ _ hq, fmul_fin]

theorem expReads_expQR (q n : ℝ) (hq : 0 < q) :
    expReads (fin q) (fin n) (fin (expQR q)) = fin (expNR q n) := by
  rw [expReads_fin q n _ (by linarith), expNR]

theorem costZip_fin (q e1 e2 : ℝ) (hq : 0 < q) :
    costZip (fin q) (fin e1) (fin e2) =
      fin (q * 3 + q * Real.logb 2 q * 130 + (e1 + e2) * 1 + e2 * 30) := by
  rw [costZip, CostKey, CostSort, CostComp, CostRead, flog2_fin q hq,
    fmul_fin, fmul_fin, fmul_fin, fadd_fin, fmul_fin, fadd_fin, fmul_fin,
    fadd_fin, fadd_fin]

theorem costHash_fin (q n e : ℝ) :
    costHash (fin q) (fin n) (fin e) = fin (n * (45 + 30) + e * 3 + e * 30) := by
  rw [costHash, CostInsert, CostRead, CostKey, CostLookup, fadd_fin, fmul_fin,
    fmul_fin, fmul_fin, fadd_fin, fadd_fin]

theorem costZip_eval (q n : ℝ) (hq : 0 < q) :
    costZip (fin q) (fin (expQR q)) (fin (expNR q n)) = fin (czipR q n) := by
  rw [costZip_fin _ _ _ hq, czipR]

theorem costHash_eval (q n : ℝ) :
    costHash (fin q) (fin n) (fin (expQR q)) = fin (chashR q n) := by
  rw [costHash_fin, chashR]

/-! Sign facts about the real shadows. -/

theorem expQR_pos {q : ℝ} (hq : 0 < q) : 0 < expQR q := by
  have h : Real.exp (-(q / 784931)) < 1 := by
    rw [Real.exp_lt_one_iff]
    have : 0 < q / 784931 := by positivity
    linarith
  rw [expQR]
  nlinarith

theorem expQR_nonneg {q : ℝ} (hq : 0 ≤ q) : 0 ≤ expQR q := by
  have h : Real.exp (-(q / 784931)) ≤ 1 := by
    rw [Real.exp_le_one_iff]
    have : 0 ≤ q / 784931 := by positivity
    linarith
  rw [expQR]
  nlinarith

theorem expQR_le_M (q : ℝ) : expQR q ≤ 784931 := by
  have h : 0 < Real.exp (-(q / 784931)) := Real.exp_pos _
  rw [expQR]
  nlinarith

theorem expQR_le_self (q : ℝ) : expQR q ≤ q := by
  have h := Real.add_one_le_exp (-(q / 784931))
  rw [expQR]
  linarith

theorem expNR_nonneg {q n : ℝ} (hq : 0 ≤ q) (hn : 0 ≤ n) : 0 ≤ expNR q n := by
  rw [expNR]
  exact mul_nonneg (div_nonneg (by linarith) (by linarith)) (expQR_nonneg hq)

theorem czipR_pos {q n : ℝ} (hq : 1 ≤ q) (hn : 0 ≤ n) : 0 < czipR q n := by
  have h0 : (0:ℝ) < q := lt_of_lt_of_le one_pos hq
  have hlog : 0 ≤ Real.logb 2 q := Real.logb_nonneg (by norm_num) hq
  have he1 := expQR_pos h0
  have he2 := expNR_nonneg h0.le hn
  have hql : 0 ≤ q * Real.logb 2 q := mul_nonneg h0.le hlog
  rw [czipR]
  nlinarith

theorem chashR_pos {q n : ℝ} (hq : 0 < q) (hn : 0 ≤ n) : 0 < chashR q n := by
  have he := expQR_pos hq
  rw [chashR]
  nlinarith

/-- Workhorse: for `querySize ≥ 1` every intermediate float of `Optimize` is
finite and the call reduces to a comparison of the two real shadows. -/
theorem Optimize_eval (q n : ℤ) (hq : 1 ≤ q) :
    Optimize q n =
      if czipR (q : ℝ) (n : ℝ) < chashR (q : ℝ) (n : ℝ) then
        (MatchZip, fdiv (fin (czipR (q : ℝ) (n : ℝ))) (fin (chashR (q : ℝ) (n : ℝ))))
      else
        (MatchHash, fdiv (fin (chashR (q : ℝ) (n : ℝ))) (fin (czipR (q : ℝ) (n : ℝ)))) := by
  have hq' : (0:ℝ) < (q : ℝ) := by exact_mod_cast lt_of_lt_of_le zero_lt_one hq
  simp only [Optimize, expQueries_fin, expReads_expQR _ _ hq',
    costZip_eval _ _ hq', costHash_eval, flt_fin, decide_eq_true_eq]

@[simp]
theorem flt_nan_left (b : GFloat) : flt nan b = false := by cases b <;> rfl

@[simp]
theorem fdiv_nan_right (a : GFloat) : fdiv a nan = nan := by cases a <;> rfl

@[simp]
theorem fadd_nan_left (b : GFloat) : fadd nan b = nan := by cases b <;> rfl

@[simp]
theorem fadd_nan_right (a : GFloat) : fadd a nan = nan := by cases a <;> rfl

@[simp]
theorem fmul_nan_left (b : GFloat) : fmul nan b = nan := by cases b <;> rfl

@[simp]
theorem fmul_nan_right (a : GFloat) : fmul a nan = nan := by cases a <;> rfl

theorem expQR_zero : expQR 0 = 0 := by
  rw [expQR]
  norm_num

/-- With `querySize = 0` the term `q*math.Log2(q)` of `costZip` is
`0 * (-∞) = NaN`, which absorbs the whole sum. -/
theorem costZip_zero (e1 e2 : GFloat) : costZip (fin 0) e1 e2 = nan := by
  have hlog : flog2 (fin 0) = inf false := by
    rw [flog2, if_neg (lt_irrefl (0:ℝ)), if_pos rfl]
  have hmul : fmul (fin 0) (inf false) = nan := by
    rw [fmul, if_pos rfl]
  rw [costZip, hlog, hmul]
  simp

/-- `Optimize 0 n`: `cZip` is NaN, the NaN comparison is false, so the Hash
branch is taken and the returned ratio `cHash / NaN` is NaN. -/
theorem Optimize_zero (n : ℤ) : Optimize 0 n = (MatchHash, nan) := by
  simp only [Optimize, Int.cast_zero, costZip_zero, flt_nan_left,
    Bool.false_eq_true, if_false, fdiv_nan_right]

/-- The selector's branches only ever produce the `Zip` and `Hash` tags. -/
theorem optimize_tag_cases (q n : ℤ) :
    (Optimize q n).1 = MatchZip ∨ (Optimize q n).1 = MatchHash := by
  rw [Optimize]
  split
  · exact Or.inl rfl
  · exact Or.inr rfl

/-- C1 (amended): for `querySize ≥ 1` and `filterSize ≥ 0`, `Optimize`
returns a tag in `{Zip, Hash}` and a finite ratio strictly in `(0, 1]`.
(As stated over all `querySize ≥ 0` the claim fails: at `querySize = 0` the
ratio is NaN, see the counterexample.) -/
theorem optimize_tag_and_confidence (q n : ℤ) (hq : 1 ≤ q) (hn : 0 ≤ n) :
    ((Optimize q n).1 = MatchZip ∨ (Optimize q n).1 = MatchHash) ∧
    ∃ r : ℝ, (Optimize q n).2 = GFloat.fin r ∧ 0 < r ∧ r ≤ 1 := by
  have hq1 : (1:ℝ) ≤ (q : ℝ) := by exact_mod_cast hq
  have hq' : (0:ℝ) < (q : ℝ) := lt_of_lt_of_le one_pos hq1
  have hn' : (0:ℝ) ≤ (n : ℝ) := by exact_mod_cast hn
  have hz := czipR_pos hq1 hn'
  have hh := chashR_pos hq' hn'
  refine ⟨optimize_tag_cases q n, ?_⟩
  rw [Optimize_eval q n hq]
  by_cases h : czipR (q : ℝ) (n : ℝ) < chashR (q : ℝ) (n : ℝ)
  · rw [if_pos h]
    exact ⟨czipR (q : ℝ) (n : ℝ) / chashR (q : ℝ) (n : ℝ),
      fdiv_fin _ _ hh.ne', div_pos hz hh, le_of_lt ((div_lt_one hh).2 h)⟩
  · rw [if_neg h]
    exact ⟨chashR (q : ℝ) (n : ℝ) / czipR (q : ℝ) (n : ℝ),
      fdiv_fin _ _ hz.ne', div_pos hh hz, (div_le_one hz).2 (not_lt.1 h)⟩

/-- Witness for C1 at `querySize = 1`, `filterSize = 0`. -/
theorem optimize_tag_and_confidence_witness :
    ((Optimize 1 0).1 = MatchZip ∨ (Optimize 1 0).1 = MatchHash) ∧
    ∃ r : ℝ, (Optimize 1 0).2 = GFloat.fin r ∧ 0 < r ∧ r ≤ 1 :=
  optimize_tag_and_confidence 1 0 (by norm_num) (by norm_num)

/-- Counterexample to C1 as stated: at `querySize = 0`, `filterSize = 1`
(both `≥ 0`) the returned ratio is NaN, not a float in `(0, 1]`. -/
theorem optimize_ratio_nan_at_zero_query :
    (Optimize 0 1).2 = GFloat.nan ∧
    ¬ ∃ r : ℝ, (Optimize 0 1).2 = GFloat.fin r ∧ 0 < r ∧ r ≤ 1 := by
  rw [Optimize_zero 1]
  refine ⟨rfl, ?_⟩
  rintro ⟨r, hr, -, -⟩
  exact GFloat.noConfusion hr

/-- C2 (amended): `Optimize(0, N)` selects Hash for every `N` (because
`costZip(0)` is NaN via `0 * Log2(0)` and the comparison with NaN is false,
not because Zip wins trivially); `costHash` with `filterSize = 0` collapses
to its query-side terms `expQ*keyWeight + expQ*lookupWeight`, independently
of the query cost argument; and the returned tag is always valid (`Zip` or
`Hash`). -/
theorem optimize_boundary_behavior :
    (∀ n : ℤ, (Optimize 0 n).1 = MatchHash) ∧
    (∀ (qf : GFloat) (e : ℝ),
        costHash qf (fin 0) (fin e) = fin (e * 3 + e * 30)) ∧
    (∀ q n : ℤ, (Optimize q n).1 = MatchZip ∨ (Optimize q n).1 = MatchHash) := by
  refine ⟨fun n => by rw [Optimize_zero], fun qf e => ?_, optimize_tag_cases⟩
  rw [costHash, CostInsert, CostRead, CostKey, CostLookup]
  simp

/-- Counterexample to C2 as stated: `Optimize(0, 5)` selects Hash, not Zip. -/
theorem optimize_zero_query_selects_hash :
    (Optimize 0 5).1 = MatchHash ∧ MatchHash ≠ MatchZip :=
  ⟨by rw [Optimize_zero], by decide⟩

/-- C4: `Optimize` returns `(Zip, cZip/cHash)` exactly when the float
comparison `cZip < cHash` holds, and `(Hash, cHash/cZip)` otherwise, where
`cZip` and `cHash` are the internal cost estimates for those inputs. -/
theorem optimize_selector_branches (q n : ℤ) :
    Optimize q n =
      if flt (cZipOf q n) (cHashOf q n) then
        (MatchZip, fdiv (cZipOf q n) (cHashOf q n))
      else (MatchHash, fdiv (cHashOf q n) (cZipOf q n)) := rfl

/-- C5: the cost estimates equal the spec's closed forms
`costZip = Q*keyWeight + Q*log2(Q)*sortWeight + (expQ+expN)*compareWeight + expN*readWeight`
and `costHash = N*(insertWeight+readWeight) + expQ*keyWeight + expQ*lookupWeight`
(the query-side terms of `costHash` weighted by the `expQ` argument, not by
`Q`), with sort = 130, read = 30, insert = 45, lookup = 30, compare = 1,
key = 3. -/
theorem cost_closed_forms :
    (∀ q e1 e2 : ℝ, 0 < q →
        costZip (fin q) (fin e1) (fin e2) =
          fin (q * 3 + q * Real.logb 2 q * 130 + (e1 + e2) * 1 + e2 * 30)) ∧
    (∀ q n e : ℝ,
        costHash (fin q) (fin n) (fin e) =
          fin (n * (45 + 30) + e * 3 + e * 30)) ∧
    CostSort = fin 130 ∧ CostRead = fin 30 ∧ CostInsert = fin 45 ∧
    CostLookup = fin 30 ∧ CostComp = fin 1 ∧ CostKey = fin 3 :=
  ⟨fun q e1 e2 hq => costZip_fin q e1 e2 hq, costHash_fin,
    rfl, rfl, rfl, rfl, rfl, rfl⟩

/-- Witness for C5 at `q = 1`, `expQ = 2`, `expN = 3`. -/
theorem cost_closed_forms_witness :
    costZip (fin 1) (fin 2) (fin 3) =
      fin (1 * 3 + 1 * Real.logb 2 1 * 130 + (2 + 3) * 1 + 3 * 30) :=
  cost_closed_forms.1 1 2 3 (by norm_num)

/-- C6: the expectation helpers equal the spec's closed forms
`expQ = M * (1 - e^(-Q/M))` with `M = 784931` and
`expN = ((N+1)/(Q+1)) * expQ`; for `Q ≥ 0` the denominator `Q + 1` is
nonzero, so `expN` is a finite float even when `Q` or `N` is zero. -/
theorem expectation_closed_forms :
    M = fin 784931 ∧
    (∀ q : ℝ, expQueries (fin q) =
        fin (784931 * (1 - Real.exp (-(q / 784931))))) ∧
    (∀ q n e : ℝ, 0 ≤ q →
        (q + 1 ≠ 0 ∧
          expReads (fin q) (fin n) (fin e) = fin ((n + 1) / (q + 1) * e))) :=
  ⟨rfl, fun q => by rw [expQueries_fin, expQR],
    fun q n e hq => ⟨by linarith, expReads_fin q n e (by linarith)⟩⟩

/-- Witness for C6 at `Q = 0`, `N = 0`, `expQ = 5` (the division-by-zero
boundary the `+1` terms protect). -/
theorem expectation_closed_forms_witness :
    (0 : ℝ) + 1 ≠ 0 ∧
      expReads (fin 0) (fin 0) (fin 5) = fin ((0 + 1) / (0 + 1) * 5) :=
  expectation_closed_forms.2.2 0 0 5 (by norm_num)

/-- C8: `Optimize` is a pure function of its two integer arguments — the
embedding takes no state and returns values depending only on
`(querySize, filterSize)`, so any two calls with equal arguments yield the
same tag and the same cost ratio. -/
theorem optimize_deterministic (q n q2 n2 : ℤ) (hq : q = q2) (hn : n = n2) :
    Optimize q n = Optimize q2 n2 := by rw [hq, hn]

/-- Witness for C8 at `(5, 7)`. -/
theorem optimize_deterministic_witness : Optimize 5 7 = Optimize 5 7 :=
  optimize_deterministic 5 7 5 7 rfl rfl

/-- At `Q = 1, N = 1000` the Zip cost (at most `3 + 15516.5 * expQ` with
`expQ ≤ 1`) is below the Hash cost (at least `75000`). -/
theorem czipR_lt_chashR_at_1_1000 : czipR 1 1000 < chashR 1 1000 := by
  have hE1 : expQR 1 ≤ 1 := by simpa using expQR_le_self 1
  have hE0 : 0 < expQR 1 := expQR_pos one_pos
  rw [czipR, chashR, expNR, Real.logb_one]
  norm_num
  nlinarith

/-- At `Q = 1000000, N = 1000` the Hash cost (at most
`75000 + 33 * 784931`) is below the Zip cost (at least
`130 * 10^6 * log2(10^6) ≥ 130 * 10^6 * 19`). -/
theorem chashR_le_czipR_at_1000000_1000 :
    ¬ czipR 1000000 1000 < chashR 1000000 1000 := by
  have h19 : (19:ℝ) ≤ Real.logb 2 1000000 := by
    have h1 : Real.logb 2 ((2:ℝ) ^ (19:ℕ)) = 19 := by
      rw [Real.logb_pow, Real.logb_self_eq_one (by norm_num)]
      norm_num
    calc (19:ℝ) = Real.logb 2 ((2:ℝ) ^ (19:ℕ)) := h1.symm
      _ ≤ Real.logb 2 1000000 :=
          Real.logb_le_logb_of_le (by norm_num) (by norm_num) (by norm_num)
  have hEM : expQR 1000000 ≤ 784931 := expQR_le_M 1000000
  have hE0 : 0 ≤ expQR 1000000 := expQR_nonneg (by norm_num)
  have hN0 : 0 ≤ expNR 1000000 1000 := expNR_nonneg (by norm_num) (by norm_num)
  rw [not_lt, czipR, chashR]
  nlinarith

/-- C7: with `M = 784931` and `filterSize = 1000`, `Optimize(1, 1000)`
selects the Zip strategy and `Optimize(1000000, 1000)` selects the Hash
strategy. -/
theorem optimize_concrete_selection :
    (Optimize 1 1000).1 = MatchZip ∧ (Optimize 1000000 1000).1 = MatchHash := by
  constructor
  · rw [Optimize_eval 1 1000 (by norm_num)]
    norm_num [czipR_lt_chashR_at_1_1000]
  · rw [Optimize_eval 1000000 1000 (by norm_num)]
    norm_num [chashR_le_czipR_at_1000000_1000]

/-- The merge-walk finds a hit exactly when the two ascending sequences
intersect. -/
theorem mergeMatch_eq_true_iff :
    ∀ fs qs : List ℕ, fs.Sorted (· ≤ ·) → qs.Sorted (· ≤ ·) →
      (mergeMatch fs qs = true ↔ ∃ x, x ∈ fs ∧ x ∈ qs) := by
  intro fs qs
  induction fs, qs using mergeMatch.induct with
  | case1 fs =>
    intro _ _
    simp [mergeMatch]
  | case2 x hx =>
    intro _ _
    obtain ⟨q, qs, rfl⟩ : ∃ q qs, x = q :: qs := by
      cases x with
      | nil => exact absurd rfl hx
      | cons q qs => exact ⟨q, qs, rfl⟩
    simp [mergeMatch]
  | case3 fs q qs =>
    intro _ _
    simp [mergeMatch]
  | case4 f fs q qs hne hlt ih =>
    intro hf hq
    simp only [mergeMatch, if_neg hne, if_pos hlt]
    rw [ih hf.of_cons hq]
    constructor
    · rintro ⟨x, h1, h2⟩
      exact ⟨x, List.mem_cons_of_mem f h1, h2⟩
    · rintro ⟨x, h1, h2⟩
      rcases List.mem_cons.1 h1 with rfl | h1t
      · rcases List.mem_cons.1 h2 with rfl | h2t
        · exact absurd rfl hne
        · have hle := (List.sorted_cons.1 hq).1 _ h2t
          omega
      · exact ⟨x, h1t, h2⟩
  | case5 f fs q qs hne hnlt ih =>
    intro hf hq
    simp only [mergeMatch, if_neg hne, if_neg hnlt]
    rw [ih hf hq.of_cons]
    constructor
    · rintro ⟨x, h1, h2⟩
      exact ⟨x, h1, List.mem_cons_of_mem q h2⟩
    · rintro ⟨x, h1, h2⟩
      rcases List.mem_cons.1 h2 with rfl | h2t
      · rcases List.mem_cons.1 h1 with rfl | h1t
        · exact absurd rfl hne
        · have hle := (List.sorted_cons.1 hf).1 _ h1t
          omega
      · exact ⟨x, h1, h2t⟩

/-- The hash probe finds a hit exactly when the two sequences intersect. -/
theorem hashMatch_eq_true_iff (fs qs : List ℕ) :
    hashMatch fs qs = true ↔ ∃ x, x ∈ fs ∧ x ∈ qs := by
  simp [hashMatch, List.any_eq_true]
  constructor
  · rintro ⟨x, h1, h2⟩
    exact ⟨x, h2, h1⟩
  · rintro ⟨x, h1, h2⟩
    exact ⟨x, h2, h1⟩

/-- C3 (spec-modelled): on any sorted filter sequence and sorted query
sequence the Merge Matcher and the Hash Matcher return the same boolean
existence result. -/
theorem mergeMatch_eq_hashMatch (fs qs : List ℕ)
    (hf : fs.Sorted (· ≤ ·)) (hq : qs.Sorted (· ≤ ·)) :
    mergeMatch fs qs = hashMatch fs qs := by
  rw [Bool.eq_iff_iff, mergeMatch_eq_true_iff fs qs hf hq, hashMatch_eq_true_iff]

/-- Witness for C3 on concrete sorted lists with a one-point intersection. -/
theorem mergeMatch_eq_hashMatch_witness :
    ([1, 3, 5] : List ℕ).Sorted (· ≤ ·) ∧ ([2, 3] : List ℕ).Sorted (· ≤ ·) ∧
      mergeMatch [1, 3, 5] [2, 3] = hashMatch [1, 3, 5] [2, 3] :=
  ⟨by decide, by decide, mergeMatch_eq_hashMatch [1, 3, 5] [2, 3] (by decide) (by decide)⟩

end Gcs

namespace Txsort

/-- The output-context wrapper construction panics exactly on a length
mismatch. -/
theorem makeSortable_none_iff (touts : List TxOut) (ctxts : List (List ℕ)) :
    makeSortableOutputContextSlice touts ctxts = none ↔
      touts.length ≠ ctxts.length := by
  simp only [makeSortableOutputContextSlice]
  split <;> simp_all

/-- When the construction succeeds it returns the index-wise zip. -/
theorem makeSortable_some (touts : List TxOut) (ctxts : List (List ℕ))
    (l : List TxOutWithContext)
    (h : makeSortableOutputContextSlice touts ctxts = some l) :
    l = List.zipWith TxOutWithContext.mk touts ctxts := by
  simp only [makeSortableOutputContextSlice] at h
  split at h
  · exact Option.noConfusion h
  · exact (Option.some.injEq _ _ ▸ h).symm

/-- C10 (amended): `makeSortableOutputContextSlice` panics iff the number of
outputs differs from the number of contexts, and on equal lengths pairs
output `i` with context `i`; `ContextualSort` and `InPlaceContextualSort`
panic under exactly the same condition; `IsContextualSorted`, however,
reaches the panicking length check only when the inputs are already sorted —
with unsorted inputs it returns `false` before the check, whatever the
lengths. -/
theorem contextual_panic_spec :
    (∀ (touts : List TxOut) (ctxts : List (List ℕ)),
        (makeSortableOutputContextSlice touts ctxts = none ↔
          touts.length ≠ ctxts.length)) ∧
    (∀ (touts : List TxOut) (ctxts : List (List ℕ)) (l : List TxOutWithContext)
        (i : ℕ) (o : TxOut) (c : List ℕ),
        makeSortableOutputContextSlice touts ctxts = some l →
        touts[i]? = some o → ctxts[i]? = some c →
        l[i]? = some (TxOutWithContext.mk o c)) ∧
    (∀ (tx : MsgTx) (ctxts : List (List ℕ)),
        (ContextualSort tx ctxts = none ↔ tx.txOut.length ≠ ctxts.length)) ∧
    (∀ (tx : MsgTx) (ctxts : List (List ℕ)),
        (InPlaceContextualSort tx ctxts = none ↔
          tx.txOut.length ≠ ctxts.length)) ∧
    (∀ (tx : MsgTx) (ctxts : List (List ℕ)),
        (IsContextualSorted tx ctxts = none ↔
          (isSortedSlice inputLess tx.txIn = true ∧
            tx.txOut.length ≠ ctxts.length))) := by
  refine ⟨makeSortable_none_iff, ?_, ?_, ?_, ?_⟩
  · intro touts ctxts l i o c hmk h1 h2
    rw [makeSortable_some touts ctxts l hmk]
    simp [List.getElem?_zipWith, h1, h2]
  · intro tx ctxts
    rw [← makeSortable_none_iff tx.txOut ctxts]
    simp only [ContextualSort]
    rcases h : makeSortableOutputContextSlice tx.txOut ctxts with _ | s <;>
      simp [h]
  · intro tx ctxts
    rw [← makeSortable_none_iff tx.txOut ctxts]
    simp only [InPlaceContextualSort]
    rcases h : makeSortableOutputContextSlice tx.txOut ctxts with _ | s <;>
      simp [h]
  · intro tx ctxts
    by_cases hin : isSortedSlice inputLess tx.txIn = true
    · rw [and_iff_right hin, ← makeSortable_none_iff tx.txOut ctxts]
      simp only [IsContextualSorted, hin, Bool.not_true, Bool.false_eq_true,
        if_false]
      rcases h : makeSortableOutputContextSlice tx.txOut ctxts with _ | s <;>
        simp [h]
    · have hin2 : isSortedSlice inputLess tx.txIn = false := by
        rcases Bool.eq_false_or_eq_true (isSortedSlice inputLess tx.txIn) with h | h
        · exact absurd h hin
        · exact h
      simp [IsContextualSorted, hin2]

/-- Witness for C10: on a one-output transaction with one context the
construction succeeds and pairs output 0 with context 0. -/
theorem contextual_panic_spec_witness :
    (List.zipWith TxOutWithContext.mk [(⟨5, [1]⟩ : TxOut)] [[7]])[0]? =
      some (TxOutWithContext.mk ⟨5, [1]⟩ [7]) :=
  contextual_panic_spec.2.1 [⟨5, [1]⟩] [[7]]
    (List.zipWith TxOutWithContext.mk [⟨5, [1]⟩] [[7]]) 0 ⟨5, [1]⟩ [7]
    (by decide) (by decide) (by decide)

/-- Counterexample to C10 as stated: a transaction whose two inputs are out
of BIP-69 order, with one output and zero contexts. The lengths differ, yet
`IsContextualSorted` returns `false` instead of panicking, because the input
check short-circuits before the length check is reached. -/
theorem isContextualSorted_no_panic_on_mismatch :
    (MsgTx.mk [⟨⟨[1], 0⟩⟩, ⟨⟨[0], 0⟩⟩] [⟨1, []⟩]).txOut.length ≠
        ([] : List (List ℕ)).length ∧
      IsContextualSorted (MsgTx.mk [⟨⟨[1], 0⟩⟩, ⟨⟨[0], 0⟩⟩] [⟨1, []⟩]) [] =
        some false := by
  constructor
  · decide
  · decide

/-- C9 failing input: `ContextualSort` on a transaction whose two outputs are
out of order returns the transaction with its outputs still in the original,
unsorted order (the Go code sorts a temporary wrapper slice built from the
argument's outputs and discards it), while plain `SortTx` on the same
transaction does sort the outputs. The argument itself is unchanged in both
cases (first component). -/
theorem contextualSort_keeps_outputs_unsorted :
    ContextualSort (MsgTx.mk [] [⟨2, []⟩, ⟨1, []⟩]) [[], []] =
        some (MsgTx.mk [] [⟨2, []⟩, ⟨1, []⟩], MsgTx.mk [] [⟨2, []⟩, ⟨1, []⟩]) ∧
      isSortedSlice ctxOutputLess
        (List.zipWith TxOutWithContext.mk [⟨2, []⟩, ⟨1, []⟩] [[], []]) = false ∧
      SortTx (MsgTx.mk [] [⟨2, []⟩, ⟨1, []⟩]) =
        (MsgTx.mk [] [⟨2, []⟩, ⟨1, []⟩], MsgTx.mk [] [⟨1, []⟩, ⟨2, []⟩]) := by
  refine ⟨?_, ?_, ?_⟩
  · decide
  · decide
  · decide

end Txsort
